import Mathlib

/-!
Verification development for the nest-utilities query-translation layer.

The TypeScript sources are embedded shallowly:
* JavaScript values that flow through the query translator are modelled by
  the mutual inductive family `JSVal` / `JSList` / `JSEntries` (an object is
  an ordered list of key/value entries, as produced by `Object.entries`).
* Host-environment builtins used by the sources (`decodeURIComponent`,
  unary `+` on strings, `String.prototype.split`, `Array.prototype.slice`)
  are modelled by executable functions whose documented scope is noted on
  each definition.
* Asynchronous database and schema access performed by `CrudService` is
  modelled by oracle parameters; the list of issued queries is returned
  explicitly so that "no query was issued" is expressible.
-/

set_option maxHeartbeats 1600000

namespace NestUtilities

/-! ## JavaScript value model -/

mutual

/-- Model of a JavaScript value as it appears in parsed query conditions:
strings, numbers (modelled as exact rationals), booleans, `null`,
`undefined`, arrays, plain objects, and opaque host function values (the
only functions that reach a condition tree are members of the
`customOperators` record leaked through its inherited `valueOf`). -/
inductive JSVal where
  | vStr (s : String)
  | vNum (q : Rat)
  | vBool (b : Bool)
  | vNull
  | vUndef
  | vArr (items : JSList)
  | vObj (entries : JSEntries)
  | vFun

/-- Model of a JavaScript array: a list of `JSVal`. -/
inductive JSList where
  | nil
  | cons (head : JSVal) (tail : JSList)

/-- Model of a JavaScript plain object: the ordered key/value entries,
in the order `Object.entries` yields them. -/
inductive JSEntries where
  | nil
  | cons (key : String) (val : JSVal) (tail : JSEntries)

end

/-- Object property read: returns the value stored under `k`, if any. -/
def objGet : JSEntries → String → Option JSVal
  | .nil, _ => none
  | .cons k v t, f => if k = f then some v else objGet t f

/-- Object property assignment `obj[k] = v`: an existing key keeps its
position and gets the new value, a new key is appended (JavaScript
object-key-order semantics). -/
def objInsert : JSEntries → String → JSVal → JSEntries
  | .nil, k, v => .cons k v .nil
  | .cons k' v' t, k, v =>
      if k' = k then .cons k' v t else .cons k' v' (objInsert t k v)

/-- Object spread `{ ...acc, ...src }` restricted to the second operand:
assigns every entry of `src` into `acc` in order. -/
def spreadMerge : JSEntries → JSEntries → JSEntries
  | acc, .nil => acc
  | acc, .cons k v t => spreadMerge (objInsert acc k v) t

/-- Properties deletion `delete obj[k]`. -/
def objDelete : JSEntries → String → JSEntries
  | .nil, _ => .nil
  | .cons k' v t, k => if k' = k then objDelete t k else .cons k' v (objDelete t k)

/-- JavaScript truthiness of a value (`""`, `0`, `false`, `null` and
`undefined` are falsy, everything else is truthy). -/
def jsTruthy : JSVal → Bool
  | .vStr s => !(s == "")
  | .vNum q => !(q == 0)
  | .vBool b => b
  | .vNull => false
  | .vUndef => false
  | .vArr _ => true
  | .vObj _ => true
  | .vFun => true

/-- Conversion of a Lean list of values into the `JSList` model. -/
def jsListOf : List JSVal → JSList
  | [] => .nil
  | v :: t => .cons v (jsListOf t)

/-! ## Models of host string builtins

The sources run on a JavaScript engine; the string builtins they use are
modelled here over the character data of a `String`, structurally, so that
every definition evaluates inside the kernel. -/

/-- Model of `String.prototype.split` with a one-character separator:
`"".split(c)` is `[""]`, separators delimit possibly empty segments. -/
def jsSplitChar (c : Char) (s : String) : List String :=
  go s.data []
where
  /-- Walks the characters, accumulating the current segment in reverse. -/
  go : List Char → List Char → List String
    | [], acc => [String.mk acc.reverse]
    | x :: xs, acc => if x = c then String.mk acc.reverse :: go xs [] else go xs (x :: acc)

/-- Model of `Array.prototype.join(sep)` for string arrays. -/
def jsJoin (sep : String) : List String → String
  | [] => ""
  | [a] => a
  | a :: b :: t => a ++ sep ++ jsJoin sep (b :: t)

/-- Tests whether a string starts with the character `$`. -/
def startsWithDollar (s : String) : Bool :=
  match s.data with
  | [] => false
  | c :: _ => c == '$'

/-- Value of a hexadecimal digit, if the character is one. -/
def hexDigitVal (c : Char) : Option Nat :=
  if '0' ≤ c ∧ c ≤ '9' then some (c.toNat - 48)
  else if 'a' ≤ c ∧ c ≤ 'f' then some (c.toNat - 87)
  else if 'A' ≤ c ∧ c ≤ 'F' then some (c.toNat - 55)
  else none

/-- Character-level percent decoding. -/
def percentDecodeChars : List Char → List Char
  | [] => []
  | '%' :: a :: b :: rest =>
      match hexDigitVal a, hexDigitVal b with
      | some x, some y => Char.ofNat (16 * x + y) :: percentDecodeChars rest
      | _, _ => '%' :: percentDecodeChars (a :: b :: rest)
  | c :: rest => c :: percentDecodeChars rest

/-- Model of the host builtin `decodeURIComponent`, scoped to single-byte
percent escapes: `%HH` becomes the character with code `HH`; sequences that
are not two hexadecimal digits are kept verbatim (the real builtin throws a
`URIError` there, and reassembles multi-byte UTF-8 escapes; neither case is
exercised by the claims). -/
def decodeURIComponent (s : String) : String :=
  String.mk (percentDecodeChars s.data)

/-- Numeric value of a list of decimal digit characters. -/
def digitsToNat (cs : List Char) : Nat :=
  cs.foldl (fun a c => a * 10 + (c.toNat - 48)) 0

/-- Model of the regular expression test for the source's
latexstyle `numberRegex` = `^\d+(\.\d+)?$`: one or more digits, optionally
followed by a dot and one or more digits. -/
def numberLit (s : String) : Bool :=
  match jsSplitChar '.' s with
  | [a] => !(a == "") && a.data.all Char.isDigit
  | [a, b] => !(a == "") && a.data.all Char.isDigit && !(b == "") && b.data.all Char.isDigit
  | _ => false

/-- Exact rational value of a decimal literal accepted by `numberLit`
(the engine would round it to a binary float; the claims only exercise
small literals where the distinction is invisible). -/
def parseDecimalRat (s : String) : Rat :=
  match jsSplitChar '.' s with
  | [a] => (digitsToNat a.data : Rat)
  | [a, b] => (digitsToNat a.data : Rat) + (digitsToNat b.data : Rat) / ((10 : Rat) ^ b.data.length)
  | _ => 0

/-- Left brace character, written by code to keep brace characters out of
string literals. -/
def braceL : Char := Char.ofNat 123

/-- Right brace character. -/
def braceR : Char := Char.ofNat 125

/-- Model of the source's `enclosedRegex` test `/^{{.*}}$/`: the string
starts with two left braces, ends with two right braces, has length at
least four, and the enclosed part contains no line terminator (a `.` in a
JavaScript regular expression does not match line terminators). -/
def enclosedTest (s : String) : Bool :=
  let l := s.data
  let n := l.length
  decide (l.take 2 = [braceL, braceL]) &&
  decide (l.drop (n - 2) = [braceR, braceR]) &&
  decide (4 ≤ n) &&
  ((l.drop 2).take (n - 4)).all
    (fun c => !(c == '\n' || c == '\r' || c == Char.ofNat 0x2028 || c == Char.ofNat 0x2029))

/-- Model of `value.slice(2, -2)` on a string of length at least four. -/
def stripEnclosure (s : String) : String :=
  String.mk ((s.data.drop 2).take (s.data.length - 4))

/-! ## controller.utilities.ts : toPrimitive -/

/-- Shallow embedding of `toPrimitive` from
`src/source/utilities/controller.utilities.ts`: a value enclosed in double
braces is parsed to its primitive type (number, `null`, `undefined`,
`true`, `false`, or the stripped string); anything else is returned as the
string itself. -/
def toPrimitive (value : String) : JSVal :=
  if enclosedTest value = false then .vStr value
  else
    let strippedValue := stripEnclosure value
    if numberLit strippedValue then .vNum (parseDecimalRat strippedValue)
    else if strippedValue = "null" then .vNull
    else if strippedValue = "undefined" then .vUndef
    else if strippedValue = "true" then .vBool true
    else if strippedValue = "false" then .vBool false
    else .vStr strippedValue

/-! ## constants/custom-operators.ts -/

/-- Truthiness of membership in `["true", true, "1", 1]` under the
`Array.prototype.includes` (SameValueZero) semantics used by the source. -/
def isNullArgTruthy : JSVal → Bool
  | .vStr s => s == "true" || s == "1"
  | .vBool b => b
  | .vNum q => q == 1
  | _ => false

/-- Shallow embedding of the `$isNull` entry of `customOperators` from
`src/source/constants/custom-operators.ts`: yields `{ $eq: null }` when the
value is `"true"`, `true`, `"1"` or `1`, and `{ $ne: null }` otherwise. -/
def isNullOp (value : JSVal) : JSEntries :=
  if isNullArgTruthy value then .cons "$eq" .vNull .nil
  else .cons "$ne" .vNull .nil

/-- Shallow embedding of the `customOperators` record: it holds exactly the
key `$isNull` as an own property.  The guard `if (customOperators[field])`
in `castQueryConditions` is a full JavaScript property lookup and also
finds the inherited members of `Object.prototype`; that lookup is
tabulated separately by `customOperatorsLookup`. -/
def customOperators (field : String) : Option (JSVal → JSEntries) :=
  if field = "$isNull" then some isNullOp else none

/-- Entries of an array spread raw into an object: `{...array}` yields the
index-keyed entries `("0", a₀), ("1", a₁), …`. -/
def rawIndexedEntries : JSList → Nat → JSEntries
  | .nil, _ => .nil
  | .cons v t, i => .cons (Nat.repr i) v (rawIndexedEntries t (i + 1))

/-- Character entries of a string spread into an object. -/
def stringCharEntries : List Char → Nat → JSEntries
  | [], _ => .nil
  | c :: t, i => .cons (Nat.repr i) (.vStr (String.mk [c])) (stringCharEntries t (i + 1))

/-- Spread of a primitive string into an object: `{..."ab"}` yields
`{ "0": "a", "1": "b" }`. -/
def stringSpreadEntries (s : String) : JSEntries :=
  stringCharEntries s.data 0

/-- Spread of `Object(value)`: for an object `Object` returns the value
itself (own enumerable entries), for an array likewise (index-keyed
entries), for a string a wrapper whose own enumerable properties are the
index-keyed characters, and for the remaining values a wrapper or fresh
object with no own enumerable properties. -/
def objectConstructorSpread : JSVal → JSEntries
  | .vObj e => e
  | .vArr items => rawIndexedEntries items 0
  | .vStr s => stringSpreadEntries s
  | _ => .nil

/-- Result of the truthiness test `customOperators[field]` when it hits
the prototype chain: a callable whose call produces a value to spread, or
a lookup whose subsequent call throws a `TypeError`. -/
inductive ProtoDispatch where
  | opFun (op : JSVal → JSEntries)
  | opThrows

/-- The full JavaScript property lookup `customOperators[field]`: the own
key `$isNull`, and the inherited members of `Object.prototype`, all of
which are truthy.  Called with one argument and `this = customOperators`:
`constructor` is `Object` (its result is spread raw), `toString` and
`toLocaleString` return `"[object Object]"` (spread as indexed
characters), `valueOf` returns `customOperators` itself (spreading its own
entry `$isNull`, a function value), the three predicate methods return a
boolean (spreading nothing), the two `__lookup*__` methods return
`undefined` or an accessor function (spreading nothing), and calling
`__proto__` (not callable), `__defineGetter__` or `__defineSetter__`
(undefined second argument) throws a `TypeError`. -/
def customOperatorsLookup (field : String) : Option ProtoDispatch :=
  if field = "$isNull" then some (.opFun isNullOp)
  else if field = "constructor" then some (.opFun objectConstructorSpread)
  else if field = "toString" then some (.opFun (fun _ => stringSpreadEntries "[object Object]"))
  else if field = "toLocaleString" then some (.opFun (fun _ => stringSpreadEntries "[object Object]"))
  else if field = "valueOf" then some (.opFun (fun _ => .cons "$isNull" .vFun .nil))
  else if field = "hasOwnProperty" then some (.opFun (fun _ => .nil))
  else if field = "isPrototypeOf" then some (.opFun (fun _ => .nil))
  else if field = "propertyIsEnumerable" then some (.opFun (fun _ => .nil))
  else if field = "__lookupGetter__" then some (.opFun (fun _ => .nil))
  else if field = "__lookupSetter__" then some (.opFun (fun _ => .nil))
  else if field = "__proto__" then some .opThrows
  else if field = "__defineGetter__" then some .opThrows
  else if field = "__defineSetter__" then some .opThrows
  else none

/-! ## controller.utilities.ts : castQueryConditions -/

/-- Field depth as computed by `castQueryConditions`: `0` for operator keys
(keys starting with `$`), the number of dot-separated segments otherwise. -/
def keyDepth (field : String) : Nat :=
  if startsWithDollar field then 0 else (jsSplitChar '.' field).length

mutual

/-- Loop body of `castQueryConditions` over the object entries, carrying
the object built so far (`castedConditions`).  Each entry is omitted when
its field depth passes the remaining depth; then `if (customOperators[field])`
performs a full JavaScript property lookup, so besides the own key
`$isNull` every inherited member of `Object.prototype` is truthy and is
called and spread-merged into the result (the if-chain below enumerates
the lookup tabulated by `customOperatorsLookup`); otherwise arrays are
mapped item-wise, strings URL-decoded and primitive-cast, and other values
recursively cast with the remaining depth reduced by the field depth.
Calling `__proto__`, `__defineGetter__` or `__defineSetter__` throws a
`TypeError` in the program, so no result object is produced there; the
model stays total and leaves the accumulator unchanged on those keys, and
statements about program results exclude them via `customOperatorsLookup`. -/
def castEntries : JSEntries → Int → JSEntries → JSEntries
  | .nil, _, acc => acc
  | .cons field value rest, remainingDepth, acc =>
      castEntries rest remainingDepth
        (if (keyDepth field : Int) > remainingDepth then acc
         else if field = "$isNull" then spreadMerge acc (isNullOp value)
         else if field = "constructor" then
           spreadMerge acc (objectConstructorSpread value)
         else if field = "toString" then
           spreadMerge acc (stringSpreadEntries "[object Object]")
         else if field = "toLocaleString" then
           spreadMerge acc (stringSpreadEntries "[object Object]")
         else if field = "valueOf" then spreadMerge acc (.cons "$isNull" .vFun .nil)
         else if field = "hasOwnProperty" then spreadMerge acc .nil
         else if field = "isPrototypeOf" then spreadMerge acc .nil
         else if field = "propertyIsEnumerable" then spreadMerge acc .nil
         else if field = "__lookupGetter__" then spreadMerge acc .nil
         else if field = "__lookupSetter__" then spreadMerge acc .nil
         else if field = "__proto__" then acc
         else if field = "__defineGetter__" then acc
         else if field = "__defineSetter__" then acc
         else
           match value with
             | .vArr items =>
                 objInsert acc field
                   (.vArr (castItems items (remainingDepth - keyDepth field)))
             | .vStr s =>
                 objInsert acc field (toPrimitive (decodeURIComponent s))
             | .vObj inner =>
                 objInsert acc field
                   (.vObj (castEntries inner (remainingDepth - keyDepth field) .nil))
             | _ => objInsert acc field (.vObj .nil))
  termination_by structural e => e

/-- Item mapping of the array branch of `castQueryConditions`: a string
item is URL-decoded and primitive-cast, any other item is cast recursively
(`Object.entries` of a non-object is empty, of an array is its
index-keyed entries). -/
def castItems : JSList → Int → JSList
  | .nil, _ => .nil
  | .cons item rest, remainingDepth =>
      .cons
        (match item with
         | .vStr s => toPrimitive (decodeURIComponent s)
         | .vObj inner => .vObj (castEntries inner remainingDepth .nil)
         | .vArr items => .vObj (castIndexed items 0 remainingDepth .nil)
         | _ => .vObj .nil)
        (castItems rest remainingDepth)
  termination_by structural l => l

/-- Recursive cast of an array treated as an object: `Object.entries` of an
array yields the entries `("0", a₀), ("1", a₁), …`, which the source's
loop then processes exactly like object entries (the keys are decimal
numerals, so the operator-lookup branches can never fire, but they are
kept to mirror the loop verbatim). -/
def castIndexed : JSList → Nat → Int → JSEntries → JSEntries
  | .nil, _, _, acc => acc
  | .cons item rest, i, remainingDepth, acc =>
      castIndexed rest (i + 1) remainingDepth
        (if (keyDepth (Nat.repr i) : Int) > remainingDepth then acc
         else if Nat.repr i = "$isNull" then spreadMerge acc (isNullOp item)
         else if Nat.repr i = "constructor" then
           spreadMerge acc (objectConstructorSpread item)
         else if Nat.repr i = "toString" then
           spreadMerge acc (stringSpreadEntries "[object Object]")
         else if Nat.repr i = "toLocaleString" then
           spreadMerge acc (stringSpreadEntries "[object Object]")
         else if Nat.repr i = "valueOf" then spreadMerge acc (.cons "$isNull" .vFun .nil)
         else if Nat.repr i = "hasOwnProperty" then spreadMerge acc .nil
         else if Nat.repr i = "isPrototypeOf" then spreadMerge acc .nil
         else if Nat.repr i = "propertyIsEnumerable" then spreadMerge acc .nil
         else if Nat.repr i = "__lookupGetter__" then spreadMerge acc .nil
         else if Nat.repr i = "__lookupSetter__" then spreadMerge acc .nil
         else if Nat.repr i = "__proto__" then acc
         else if Nat.repr i = "__defineGetter__" then acc
         else if Nat.repr i = "__defineSetter__" then acc
         else
           match item with
             | .vArr items =>
                 objInsert acc (Nat.repr i)
                   (.vArr (castItems items (remainingDepth - keyDepth (Nat.repr i))))
             | .vStr s =>
                 objInsert acc (Nat.repr i) (toPrimitive (decodeURIComponent s))
             | .vObj inner =>
                 objInsert acc (Nat.repr i)
                   (.vObj (castEntries inner (remainingDepth - keyDepth (Nat.repr i)) .nil))
             | _ => objInsert acc (Nat.repr i) (.vObj .nil))
  termination_by structural l => l

end

/-- Shallow embedding of `castQueryConditions` from
`src/source/utilities/controller.utilities.ts` (lines 39-76).  The
`conditions` argument is dispatched on its shape the way `Object.entries`
sees it: an object yields its entries, an array its index-keyed entries,
and any other value has no entries (the string case cannot reach this
function: both call sites test for strings first). -/
def castQueryConditions (conditions : JSVal) (remainingDepth : Int) : JSEntries :=
  match conditions with
  | .vObj entries => castEntries entries remainingDepth .nil
  | .vArr items => castIndexed items 0 remainingDepth .nil
  | _ => .nil

example :
    castQueryConditions (.vObj (.cons "$bad" (.vStr "x") .nil)) 3 =
      .cons "$bad" (.vStr "x") .nil := rfl

example :
    castQueryConditions (.vObj (.cons "a.b.c.d" (.vStr "x") .nil)) 3 = .nil := rfl

example :
    castQueryConditions (.vObj (.cons "a" (.vStr "%41") .nil)) 3 =
      .cons "a" (.vStr "A") .nil := rfl

example :
    toPrimitive (String.mk [braceL, braceL, '4', '2', braceR, braceR]) = .vNum 42 := rfl

example :
    castQueryConditions (.vObj (.cons "$isNull" (.vStr "true") .nil)) 3 =
      .cons "$eq" .vNull .nil := rfl

/-! ## Cumulative dotted-field depth of a condition tree -/

mutual

/-- Cumulative depth bound for a value sitting under some already-consumed
budget: scalars are always fine, arrays bound every item, objects bound
their entries. -/
def valDepthLe : JSVal → Int → Bool
  | .vObj e, d => entriesDepthLe e d
  | .vArr l, d => listDepthLe l d
  | _, _ => true

/-- Cumulative depth bound for the items of an array. -/
def listDepthLe : JSList → Int → Bool
  | .nil, _ => true
  | .cons v t, d => valDepthLe v d && listDepthLe t d

/-- Cumulative depth bound for the entries of a condition object: each
key's own depth fits in the budget and its value fits in what remains. -/
def entriesDepthLe : JSEntries → Int → Bool
  | .nil, _ => true
  | .cons f v t, d =>
      decide ((keyDepth f : Int) ≤ d) && valDepthLe v (d - keyDepth f) && entriesDepthLe t d

end

theorem castEntries_cons (field : String) (value : JSVal) (rest : JSEntries)
    (d : Int) (acc : JSEntries) :
    castEntries (.cons field value rest) d acc =
      castEntries rest d
        (if (keyDepth field : Int) > d then acc
         else if field = "$isNull" then spreadMerge acc (isNullOp value)
         else if field = "constructor" then spreadMerge acc (objectConstructorSpread value)
         else if field = "toString" then spreadMerge acc (stringSpreadEntries "[object Object]")
         else if field = "toLocaleString" then
           spreadMerge acc (stringSpreadEntries "[object Object]")
         else if field = "valueOf" then spreadMerge acc (.cons "$isNull" .vFun .nil)
         else if field = "hasOwnProperty" then spreadMerge acc .nil
         else if field = "isPrototypeOf" then spreadMerge acc .nil
         else if field = "propertyIsEnumerable" then spreadMerge acc .nil
         else if field = "__lookupGetter__" then spreadMerge acc .nil
         else if field = "__lookupSetter__" then spreadMerge acc .nil
         else if field = "__proto__" then acc
         else if field = "__defineGetter__" then acc
         else if field = "__defineSetter__" then acc
         else
           match value with
             | .vArr items => objInsert acc field (.vArr (castItems items (d - keyDepth field)))
             | .vStr s => objInsert acc field (toPrimitive (decodeURIComponent s))
             | .vObj inner => objInsert acc field (.vObj (castEntries inner (d - keyDepth field) .nil))
             | _ => objInsert acc field (.vObj .nil)) := by
  rw [castEntries.eq_def]

theorem castItems_cons (item : JSVal) (rest : JSList) (d : Int) :
    castItems (.cons item rest) d =
      .cons
        (match item with
         | .vStr s => toPrimitive (decodeURIComponent s)
         | .vObj inner => .vObj (castEntries inner d .nil)
         | .vArr items => .vObj (castIndexed items 0 d .nil)
         | _ => .vObj .nil)
        (castItems rest d) := by
  rw [castItems.eq_def]

/-- The thirteen disequalities behind an operator lookup that misses both
the own key and the prototype chain. -/
theorem customOperatorsLookup_eq_none {f : String}
    (h : customOperatorsLookup f = none) :
    f ≠ "$isNull" ∧ f ≠ "constructor" ∧ f ≠ "toString" ∧ f ≠ "toLocaleString" ∧
    f ≠ "valueOf" ∧ f ≠ "hasOwnProperty" ∧ f ≠ "isPrototypeOf" ∧
    f ≠ "propertyIsEnumerable" ∧ f ≠ "__lookupGetter__" ∧ f ≠ "__lookupSetter__" ∧
    f ≠ "__proto__" ∧ f ≠ "__defineGetter__" ∧ f ≠ "__defineSetter__" := by
  refine ⟨?_, ?_, ?_, ?_, ?_, ?_, ?_, ?_, ?_, ?_, ?_, ?_, ?_⟩ <;>
    · intro heq
      subst heq
      exact Option.noConfusion h

/-! ## Claim C1: depth clamping (code bug) -/

/-- C1: the claimed depth clamp (and the doc comment "forces a maximum
field depth") is defeated by the prototype-chain lookup: for the
conditions object `{ constructor: { "a.b.c.d.e": "x" } }` at depth 3, the
truthy inherited lookup `customOperators["constructor"]` dispatches
`Object(value)`, whose spread copies the nested object verbatim into the
result, so the five-segment non-operator key `a.b.c.d.e` survives a
remaining depth of 3 without clamping (and its value bypasses URL
decoding); the cumulative depth bound `entriesDepthLe` fails on the
output. -/
theorem castQueryConditions_constructor_escapes_depth :
    castQueryConditions
      (.vObj (.cons "constructor"
        (.vObj (.cons "a.b.c.d.e" (.vStr "x") .nil)) .nil)) 3 =
      .cons "a.b.c.d.e" (.vStr "x") .nil ∧
    customOperatorsLookup "constructor" = some (.opFun objectConstructorSpread) ∧
    startsWithDollar "a.b.c.d.e" = false ∧
    (jsSplitChar '.' "a.b.c.d.e").length = 5 ∧
    entriesDepthLe
      (castQueryConditions
        (.vObj (.cons "constructor"
          (.vObj (.cons "a.b.c.d.e" (.vStr "x") .nil)) .nil)) 3) 3 = false :=
  ⟨rfl, rfl, rfl, rfl, rfl⟩

/-! ## Claim C2: operator sanitisation (code bug) -/

/-- C2: the doc comment of `castQueryConditions` promises that unsupported
operators are filtered out, but the code copies an unsupported operator key
verbatim into the result: `$notARealOperator` (which is no MongoDB operator
and no custom operator) survives the cast unchanged. -/
theorem castQueryConditions_keeps_unsupported_operator :
    castQueryConditions (.vObj (.cons "$notARealOperator" (.vStr "x") .nil)) 3 =
      .cons "$notARealOperator" (.vStr "x") .nil ∧
    customOperators "$notARealOperator" = none :=
  ⟨rfl, rfl⟩

/-! ## Claim C4: the $isNull custom operator -/

/-- C4: dispatching `$isNull` yields `{ $eq: null }` exactly when the value
is `"true"`, `true`, `"1"` or `1`, yields `{ $ne: null }` for every other
value, and inside `castQueryConditions` the result replaces the `$isNull`
entry by being spread-merged into the same level of the condition tree. -/
theorem customOperators_isNull_dispatch (v : JSVal) (rest acc : JSEntries) (d : Int)
    (hd : 0 ≤ d) :
    (isNullOp v = .cons "$eq" .vNull .nil ↔
      (v = .vStr "true" ∨ v = .vBool true ∨ v = .vStr "1" ∨ v = .vNum 1)) ∧
    (isNullOp v = .cons "$ne" .vNull .nil ↔
      ¬(v = .vStr "true" ∨ v = .vBool true ∨ v = .vStr "1" ∨ v = .vNum 1)) ∧
    customOperators "$isNull" = some isNullOp ∧
    castEntries (.cons "$isNull" v rest) d acc =
      castEntries rest d (spreadMerge acc (isNullOp v)) := by
  have hdepth : ¬((keyDepth "$isNull" : Int) > d) := by
    rw [show keyDepth "$isNull" = 0 from rfl]
    omega
  refine ⟨?_, ?_, rfl, ?_⟩
  · cases v with
    | vStr s =>
        by_cases hs : s = "true" <;> by_cases h1 : s = "1" <;>
          simp [isNullOp, isNullArgTruthy, hs, h1]
    | vNum q =>
        by_cases hq : q = 1 <;> simp [isNullOp, isNullArgTruthy, hq]
    | vBool b => cases b <;> simp [isNullOp, isNullArgTruthy]
    | vNull => simp [isNullOp, isNullArgTruthy]
    | vUndef => simp [isNullOp, isNullArgTruthy]
    | vArr l => simp [isNullOp, isNullArgTruthy]
    | vObj e => simp [isNullOp, isNullArgTruthy]
    | vFun => simp [isNullOp, isNullArgTruthy]
  · cases v with
    | vStr s =>
        by_cases hs : s = "true" <;> by_cases h1 : s = "1" <;>
          simp [isNullOp, isNullArgTruthy, hs, h1]
    | vNum q =>
        by_cases hq : q = 1 <;> simp [isNullOp, isNullArgTruthy, hq]
    | vBool b => cases b <;> simp [isNullOp, isNullArgTruthy]
    | vNull => simp [isNullOp, isNullArgTruthy]
    | vUndef => simp [isNullOp, isNullArgTruthy]
    | vArr l => simp [isNullOp, isNullArgTruthy]
    | vObj e => simp [isNullOp, isNullArgTruthy]
    | vFun => simp [isNullOp, isNullArgTruthy]
  · rw [castEntries_cons, if_neg hdepth, if_pos rfl]

/-- Witness for C4 at concrete inputs: `$isNull: "true"` becomes
`{ $eq: null }` and is merged into the same level. -/
theorem customOperators_isNull_dispatch_witness :
    isNullOp (.vStr "true") = .cons "$eq" .vNull .nil ∧
    castEntries (.cons "$isNull" (.vStr "true") .nil) 3 .nil =
      .cons "$eq" .vNull .nil := by
  have h := customOperators_isNull_dispatch (.vStr "true") .nil .nil 3 (by norm_num)
  refine ⟨h.1.mpr (Or.inl rfl), ?_⟩
  rw [h.2.2.2]
  rfl

/-! ## Claim C5: URL decoding of string scalars (corrected) -/

/-- String used as a counterexample: the literal `{{true}}`. -/
def enclosedTrueStr : String :=
  String.mk [braceL, braceL, 't', 'r', 'u', 'e', braceR, braceR]

/-- C5 counterexample: the claim says every string scalar appears in the
output as its URL-decoded form, but the code additionally applies
`toPrimitive`: the string `{{true}}` is its own URL-decoding, yet the
output holds the boolean `true`, not the string. -/
theorem castQueryConditions_string_counterexample :
    castQueryConditions (.vObj (.cons "a" (.vStr enclosedTrueStr) .nil)) 3 =
      .cons "a" (.vBool true) .nil ∧
    decodeURIComponent enclosedTrueStr = enclosedTrueStr ∧
    JSVal.vBool true ≠ JSVal.vStr (decodeURIComponent enclosedTrueStr) := by
  refine ⟨rfl, rfl, ?_⟩
  intro h
  exact JSVal.noConfusion h

/-- C5 amended: every string scalar whose key does not hit the operator
lookup (neither the own key `$isNull` nor an inherited member of
`Object.prototype`, i.e. `customOperatorsLookup` misses) appears in the
output of `castQueryConditions` as `toPrimitive` of its URL-decoded form —
as a direct value or as an array item; this equals the URL-decoded string
itself whenever that string is not enclosed in double braces. -/
theorem castQueryConditions_string_decoded (f s : String) (rest acc : JSEntries)
    (items : JSList) (d : Int)
    (hkd : (keyDepth f : Int) ≤ d) (hop : customOperatorsLookup f = none) :
    castEntries (.cons f (.vStr s) rest) d acc =
      castEntries rest d (objInsert acc f (toPrimitive (decodeURIComponent s))) ∧
    castItems (.cons (.vStr s) items) d =
      .cons (toPrimitive (decodeURIComponent s)) (castItems items d) ∧
    (enclosedTest (decodeURIComponent s) = false →
      toPrimitive (decodeURIComponent s) = .vStr (decodeURIComponent s)) := by
  obtain ⟨h1, h2, h3, h4, h5, h6, h7, h8, h9, h10, h11, h12, h13⟩ :=
    customOperatorsLookup_eq_none hop
  refine ⟨?_, ?_, ?_⟩
  · rw [castEntries_cons, if_neg (not_lt.mpr hkd), if_neg h1, if_neg h2, if_neg h3,
      if_neg h4, if_neg h5, if_neg h6, if_neg h7, if_neg h8, if_neg h9, if_neg h10,
      if_neg h11, if_neg h12, if_neg h13]
  · rw [castItems_cons]
  · intro h
    unfold toPrimitive
    rw [if_pos h]

/-- Witness for C5 (amended) at a concrete input: the percent escape `%41`
decodes to `A` and is kept as that string. -/
theorem castQueryConditions_string_decoded_witness :
    castEntries (.cons "a" (.vStr "%41") .nil) 3 .nil =
      castEntries .nil 3 (objInsert .nil "a" (toPrimitive (decodeURIComponent "%41"))) ∧
    toPrimitive (decodeURIComponent "%41") = .vStr "A" := by
  have h := castQueryConditions_string_decoded "a" "%41" .nil .nil .nil 3
    (by decide) rfl
  exact ⟨h.1, rfl⟩

/-! ## controller.utilities.ts : populate options and queryToOptions -/

mutual

/-- One element of the `populate` wire parameter: either a dotted path
string or a population-options object (fundering's `IPopulateOptions`). -/
inductive PopEntry where
  | pStr (s : String)
  | pObj (o : PopOption)

/-- Model of fundering's `IPopulateOptions` restricted to the fields
`limitPopulateOptionsDepth` reads or writes (`match` and `populate`) plus
the mandatory `path`; the remaining optional fields are copied untouched by
the source and are omitted here. -/
inductive PopOption where
  | mk (path : String) (mtch : Option JSVal) (populate : OptPopEntries)

/-- Optional list of populate entries (`IPopulateOptions[] | undefined`),
kept inside the mutual block so recursion over it stays structural. -/
inductive OptPopEntries where
  | noneP
  | someP (l : PopEntries)

/-- List of populate entries. -/
inductive PopEntries where
  | nil
  | cons (head : PopEntry) (tail : PopEntries)

end

/-- Path component of a populate-options object. -/
def PopOption.path : PopOption → String
  | .mk p _ _ => p

/-- Match component of a populate-options object. -/
def PopOption.mtch : PopOption → Option JSVal
  | .mk _ m _ => m

/-- Nested populate component of a populate-options object. -/
def PopOption.pop : PopOption → OptPopEntries
  | .mk _ _ l => l

/-- Model of `Array.prototype.slice(0, e)`: a negative end counts from the
end of the array, a non-negative end is clamped to the length; the result
is the number of elements taken from the front. -/
def jsSliceEndIdx (len : Int) (e : Int) : Nat :=
  (if e < 0 then max 0 (len + e) else min e len).toNat

mutual

/-- Shallow embedding of `limitPopulateOptionsDepth` from
`src/source/utilities/controller.utilities.ts` (lines 147-173):
`populateOptions?.map(...)` over an optional array. -/
def limitPopulateOptionsDepth : OptPopEntries → Int → OptPopEntries
  | .noneP, _ => .noneP
  | .someP l, remainingDepth => .someP (limitPopEntries l remainingDepth)
  termination_by structural o => o

/-- Map of the limiting transformation over the entries. -/
def limitPopEntries : PopEntries → Int → PopEntries
  | .nil, _ => .nil
  | .cons e t, remainingDepth =>
      .cons (limitPopEntry e remainingDepth) (limitPopEntries t remainingDepth)
  termination_by structural l => l

/-- The per-option body of `limitPopulateOptionsDepth`: an object option
gets a casted `match` (when truthy) and a depth-limited nested `populate`
(one level deeper); a string option is cut down to its first
`remainingDepth` dot segments via `path.slice(0, path.length -
Math.max(0, path.length - remainingDepth)).join(".")`. -/
def limitPopEntry : PopEntry → Int → PopEntry
  | .pObj (.mk path mtch populate), remainingDepth =>
      .pObj (.mk path
        (match mtch with
         | some m =>
             if jsTruthy m then some (.vObj (castQueryConditions m remainingDepth)) else some m
         | none => none)
        (limitPopulateOptionsDepth populate (remainingDepth - 1)))
  | .pStr s, remainingDepth =>
      let path := jsSplitChar '.' s
      .pStr (jsJoin "."
        (path.take (jsSliceEndIdx (path.length : Int)
          ((path.length : Int) - max 0 ((path.length : Int) - remainingDepth)))))
  termination_by structural e => e

end

/-- JavaScript number: either a (rational) numeric value or `NaN`. -/
inductive JSNum where
  | num (q : Rat)
  | nan
deriving DecidableEq

/-- Model of `String.prototype.trim` (whitespace removal at both ends). -/
def jsTrim (s : String) : String :=
  String.mk (((s.data.dropWhile Char.isWhitespace).reverse.dropWhile Char.isWhitespace).reverse)

/-- Model of the host coercion `+string`, scoped to the plain decimal
numerals the claims exercise: the trimmed empty string is `0`, an optional
sign followed by a `numberLit` numeral has its decimal value, and every
other string is `NaN` (hexadecimal, exponent and `Infinity` forms are out
of scope). -/
def toNumber (s : String) : JSNum :=
  let t := jsTrim s
  if t = "" then .num 0
  else
    match t.data with
    | '-' :: rest =>
        if numberLit (String.mk rest) then .num (-(parseDecimalRat (String.mk rest))) else .nan
    | '+' :: rest =>
        if numberLit (String.mk rest) then .num (parseDecimalRat (String.mk rest)) else .nan
    | _ => if numberLit t then .num (parseDecimalRat t) else .nan

/-- The `populate` wire parameter before the array test: an array of
populate entries or any other value. -/
inductive PopulateParam where
  | arr (l : PopEntries)
  | nonArray (v : JSVal)

/-- Model of the `IHttpOptions` interface consumed by `queryToOptions`
(the `match` field is named `mtch`, `match` being reserved in Lean).
String-typed wire fields are optional strings; fields the code probes with
`Array.isArray` are kept as raw values. -/
structure IHttpOptions where
  mtch : Option JSVal
  sort : Option JSVal
  offset : Option String
  skip : Option String
  limit : Option String
  select : Option JSVal
  populate : Option PopulateParam
  addFields : Option JSVal
  distinct : Option JSVal
  random : Option String
  custom : Option JSVal

/-- Model of `IQueryOptionsConfig` (an optional `maxDepth`). -/
structure IQueryOptionsConfig where
  maxDepth : Option Int

/-- Model of fundering's `IQueryOptions` as produced by `queryToOptions`. -/
structure IQueryOptions where
  mtch : JSEntries
  addFields : Option JSVal
  populate : OptPopEntries
  limit : Option JSNum
  skip : Option JSNum
  random : Bool
  sort : JSList
  select : JSList
  distinct : Option JSVal
  custom : JSEntries

/-- Model of `x || {}` for an optional object-typed parameter. -/
def jsOrEmptyObj : Option JSVal → JSVal
  | some v => if jsTruthy v then v else .vObj .nil
  | none => .vObj .nil

/-- Model of `a || b` for two optional string parameters (`undefined` and
the empty string are falsy). -/
def jsOrString : Option String → Option String → Option String
  | some s, b => if s = "" then b else some s
  | none, b => b

/-- Effective maximum depth `config?.maxDepth ?? 3`. -/
def effectiveMaxDepth : Option IQueryOptionsConfig → Int
  | some c =>
      match c.maxDepth with
      | some m => m
      | none => 3
  | none => 3

/-- Selection of the populate argument in `queryToOptions`:
`populate == undefined ? undefined : Array.isArray(populate) ? populate : []`
(the loose `==` also matches `null`). -/
def populateSelect : Option PopulateParam → OptPopEntries
  | none => .noneP
  | some (.nonArray .vNull) => .noneP
  | some (.arr l) => .someP l
  | some (.nonArray _) => .someP .nil

/-- Shallow embedding of `queryToOptions` from
`src/source/utilities/controller.utilities.ts` (lines 118-145). -/
def queryToOptions (query : IHttpOptions) (config : Option IQueryOptionsConfig) :
    IQueryOptions :=
  let maxDepth := effectiveMaxDepth config
  let populate := populateSelect query.populate
  let skip := jsOrString query.skip query.offset
  { mtch := castQueryConditions (jsOrEmptyObj query.mtch) maxDepth
    addFields := query.addFields
    populate := limitPopulateOptionsDepth populate maxDepth
    limit :=
      match query.limit with
      | some s => if s = "" then none else some (toNumber s)
      | none => none
    skip :=
      match skip with
      | some s => if s = "" then none else some (toNumber s)
      | none => none
    random :=
      match query.random with
      | none => false
      | some r => !(r == "0" || r == "false")
    sort :=
      match query.sort with
      | some (.vArr l) => l
      | _ => .nil
    select :=
      match query.select with
      | some (.vArr l) => l
      | _ => .nil
    distinct := query.distinct
    custom := castQueryConditions (jsOrEmptyObj query.custom) maxDepth }
/-! ## Claim C7: queryToOptions wire mapping (corrected) -/

/-- Query used as the C7 counterexample: only `populate` is given, with a
single four-segment path string. -/
def populateQueryExample : IHttpOptions :=
  { mtch := none, sort := none, offset := none, skip := none, limit := none
    select := none
    populate := some (.arr (.cons (.pStr "a.b.c.d") .nil))
    addFields := none, distinct := none, random := none, custom := none }

/-- C7 counterexample: the claim says the populate option is passed through
as the given array, but `queryToOptions` runs it through
`limitPopulateOptionsDepth`, which truncates the four-segment path
`a.b.c.d` to `a.b.c` at the default depth 3, so the output is not the
given array. -/
theorem queryToOptions_populate_counterexample :
    (queryToOptions populateQueryExample none).populate =
      .someP (.cons (.pStr "a.b.c") .nil) ∧
    (queryToOptions populateQueryExample none).populate ≠
      .someP (.cons (.pStr "a.b.c.d") .nil) := by
  refine ⟨rfl, ?_⟩
  intro h
  rw [(rfl : (queryToOptions populateQueryExample none).populate =
      OptPopEntries.someP (.cons (.pStr "a.b.c") .nil))] at h
  injection h with h1
  injection h1 with h2 h3
  injection h2 with h4
  exact absurd h4 (by decide)

/-- C7 (amended): `queryToOptions` maps the wire parameters as follows —
`limit` is the numeric value of a given non-empty `query.limit` and absent
otherwise, `skip` is the numeric value of `query.skip || query.offset`
when that is non-empty, `random` is true exactly when `query.random` is
present with a value other than `"0"` and `"false"`, `sort` and `select`
are the given arrays or `[]` when not arrays, `distinct` is passed through
unchanged, and `populate` is absent when the parameter is absent (or
null), and otherwise the given array — with every string path truncated to
its first `maxDepth` dot segments and nested object options depth-limited
recursively by `limitPopulateOptionsDepth` — or `[]` when the parameter is
not an array. -/
theorem queryToOptions_wire_mapping (query : IHttpOptions)
    (config : Option IQueryOptionsConfig) :
    (∀ s, query.limit = some s → s ≠ "" →
      (queryToOptions query config).limit = some (toNumber s)) ∧
    ((query.limit = none ∨ query.limit = some "") →
      (queryToOptions query config).limit = none) ∧
    (∀ s, jsOrString query.skip query.offset = some s → s ≠ "" →
      (queryToOptions query config).skip = some (toNumber s)) ∧
    ((queryToOptions query config).random = true ↔
      ∃ r, query.random = some r ∧ r ≠ "0" ∧ r ≠ "false") ∧
    (∀ l, query.sort = some (.vArr l) → (queryToOptions query config).sort = l) ∧
    (query.sort = none → (queryToOptions query config).sort = .nil) ∧
    (∀ l, query.select = some (.vArr l) → (queryToOptions query config).select = l) ∧
    (query.select = none → (queryToOptions query config).select = .nil) ∧
    (queryToOptions query config).distinct = query.distinct ∧
    (queryToOptions query config).populate =
      limitPopulateOptionsDepth (populateSelect query.populate)
        (effectiveMaxDepth config) ∧
    (query.populate = none → (queryToOptions query config).populate = .noneP) ∧
    (∀ v, query.populate = some (.nonArray v) → v ≠ .vNull →
      (queryToOptions query config).populate = .someP .nil) ∧
    (∀ s d, 0 ≤ d →
      limitPopEntry (.pStr s) d =
        .pStr (jsJoin "."
          ((jsSplitChar '.' s).take (min (jsSplitChar '.' s).length d.toNat)))) := by
  refine ⟨?_, ?_, ?_, ?_, ?_, ?_, ?_, ?_, rfl, rfl, ?_, ?_, ?_⟩
  · intro s hs hne
    simp [queryToOptions, hs, hne]
  · intro h
    cases h with
    | inl h => simp [queryToOptions, h]
    | inr h => simp [queryToOptions, h]
  · intro s hs hne
    simp [queryToOptions, hs, hne]
  · cases hr : query.random with
    | none =>
        simp only [queryToOptions, hr]
        constructor
        · intro h; exact absurd h (by decide)
        · rintro ⟨r, hr2, _⟩; exact absurd hr2 (by simp)
    | some r =>
        simp only [queryToOptions, hr]
        constructor
        · intro h
          refine ⟨r, rfl, ?_, ?_⟩ <;>
            · intro he
              subst he
              exact absurd h (by decide)
        · rintro ⟨r2, hr2, h0, hf⟩
          injection hr2 with hr2
          subst hr2
          simp [h0, hf]
  · intro l hl
    simp [queryToOptions, hl]
  · intro hl
    simp [queryToOptions, hl]
  · intro l hl
    simp [queryToOptions, hl]
  · intro hl
    simp [queryToOptions, hl]
  · intro h
    simp [queryToOptions, populateSelect, h, limitPopulateOptionsDepth]
  · intro v hv hne
    match v, hne with
    | .vStr s, _ => simp [queryToOptions, populateSelect, hv, limitPopulateOptionsDepth, limitPopEntries]
    | .vNum q, _ => simp [queryToOptions, populateSelect, hv, limitPopulateOptionsDepth, limitPopEntries]
    | .vBool b, _ => simp [queryToOptions, populateSelect, hv, limitPopulateOptionsDepth, limitPopEntries]
    | .vUndef, _ => simp [queryToOptions, populateSelect, hv, limitPopulateOptionsDepth, limitPopEntries]
    | .vArr l, _ => simp [queryToOptions, populateSelect, hv, limitPopulateOptionsDepth, limitPopEntries]
    | .vObj e, _ => simp [queryToOptions, populateSelect, hv, limitPopulateOptionsDepth, limitPopEntries]
    | .vFun, _ => simp [queryToOptions, populateSelect, hv, limitPopulateOptionsDepth, limitPopEntries]
    | .vNull, hne => exact absurd rfl hne
  · intro s d hd
    rw [limitPopEntry]
    congr 1
    congr 1
    congr 1
    unfold jsSliceEndIdx
    have hlen : (0 : Int) ≤ ((jsSplitChar '.' s).length : Int) := Int.natCast_nonneg _
    rcases le_or_lt ((jsSplitChar '.' s).length : Int) d with hle | hlt
    · rw [if_neg (by omega)]
      omega
    · rw [if_neg (by omega)]
      omega

/-- Witness for C7 (amended) at concrete inputs: a query with
`limit = "12"`, `random = "1"` and an array `sort`. -/
theorem queryToOptions_wire_mapping_witness :
    (queryToOptions
      { mtch := none, sort := some (.vArr (.cons (.vStr "-age") .nil)), offset := none
        skip := some "5", limit := some "12", select := none, populate := none
        addFields := none, distinct := some (.vStr "name"), random := some "1"
        custom := none } none).limit = some (toNumber "12") ∧
    (queryToOptions
      { mtch := none, sort := some (.vArr (.cons (.vStr "-age") .nil)), offset := none
        skip := some "5", limit := some "12", select := none, populate := none
        addFields := none, distinct := some (.vStr "name"), random := some "1"
        custom := none } none).sort = .cons (.vStr "-age") .nil := by
  have h := queryToOptions_wire_mapping
    { mtch := none, sort := some (.vArr (.cons (.vStr "-age") .nil)), offset := none
      skip := some "5", limit := some "12", select := none, populate := none
      addFields := none, distinct := some (.vStr "name"), random := some "1"
      custom := none } none
  exact ⟨h.1 "12" rfl (by decide), h.2.2.2.2.1 (.cons (.vStr "-age") .nil) rfl⟩
/-! ## crud.abstract.service.ts : get, delete, patch

The service methods delegate query execution to Mongoose; the database is
modelled as an oracle `dbFindOne` mapping a condition object to the found
document (standing for the `findOne`/`find` pipeline) and `dbRemove`
standing for `findByIdAndRemove`.  Each method returns the list of
condition objects it sent to the database together with its result, so
that "no database query was issued" is expressible.  The optional request
hooks (`onFindRequest`, `onDeleteRequest`, `onUpdateRequest`) only refine
conditions or authorise and are not exercised by the claims; they are
omitted (no request is passed). -/

/-- Shallow embedding of `isObjectID` (`/^[0-9a-fA-F]{24}$/.test(v + "")`)
from the utilities module: exactly 24 hexadecimal characters. -/
def isObjectID (s : String) : Bool :=
  s.data.length == 24 &&
  s.data.all (fun c =>
    ('0' ≤ c && c ≤ '9') || ('a' ≤ c && c ≤ 'f') || ('A' ≤ c && c ≤ 'F'))

/-- A stored document: its key/value entries. -/
def MongoDoc := JSEntries

/-- Shallow embedding of `CrudService.get` (crud.abstract.service.ts lines
61-71): a malformed id returns `null` before anything is queried;
otherwise `findOne({ _id: id })` is delegated to the database oracle and
the issued condition object is recorded. -/
def crudGet (dbFindOne : JSEntries → Option MongoDoc) (id : String) :
    Option MongoDoc × List JSEntries :=
  if isObjectID id = false then (none, [])
  else
    let conditions : JSEntries := .cons "_id" (.vStr id) .nil
    (dbFindOne conditions, [conditions])

/-- Shallow embedding of `CrudService.delete` (crud.abstract.service.ts
lines 228-247): a malformed id returns `null` before anything is queried;
otherwise the model is fetched via `get`, a missing model returns `null`,
and an existing model is removed via `findByIdAndRemove(id)` (the removal
query is recorded as `{ _id: id }` as well). -/
def crudDelete (dbFindOne : JSEntries → Option MongoDoc)
    (dbRemove : String → Option MongoDoc) (id : String) :
    Option MongoDoc × List JSEntries :=
  if isObjectID id = false then (none, [])
  else
    let fetched := crudGet dbFindOne id
    match fetched.1 with
    | none => (none, fetched.2)
    | some _ => (dbRemove id, fetched.2 ++ [.cons "_id" (.vStr id) .nil])

/-- Model of lodash `_isNil` (`null` or `undefined`). -/
def lodashIsNil : JSVal → Bool
  | .vNull => true
  | .vUndef => true
  | _ => false

/-- One key of the `_mergeWith(existing, model, (obj, src) => !_isNil(src)
? src : obj)` merge: a non-nil source value wins; a nil source value keeps
the destination value when that is defined; when the destination value is
undefined the customizer returns `undefined` and lodash falls back to its
default merge, which assigns `null` and skips `undefined`. -/
def mergeNilStep (acc : JSEntries) (k : String) (sv : JSVal) : JSEntries :=
  if lodashIsNil sv = false then objInsert acc k sv
  else
    match objGet acc k with
    | some ov =>
        match ov with
        | .vUndef =>
            match sv with
            | .vUndef => acc
            | _ => objInsert acc k .vNull
        | _ => objInsert acc k ov
    | none =>
        match sv with
        | .vUndef => acc
        | _ => objInsert acc k .vNull

/-- Model of the whole `_mergeWith` call: the source keys are folded over
the existing document in order. -/
def mergeWithNilKeep (existing : JSEntries) : JSEntries → JSEntries :=
  go existing
where
  /-- Folds the source entries into the accumulated document. -/
  go : JSEntries → JSEntries → JSEntries
    | acc, .nil => acc
    | acc, .cons k sv t => go (mergeNilStep acc k sv) t

/-- String coercion of the id value `modelItem._id || modelItem.id || ""`
passed to `get` (only string ids, which are the ones the service receives
over HTTP, coerce to themselves; other shapes cannot be 24-hex matches and
are mapped to a non-matching stand-in). -/
def idStringOf : JSVal → String
  | .vStr s => s
  | _ => ""

/-- The id value `modelItem._id || modelItem.id || ""` (JavaScript `||`
on the property reads, an absent property being `undefined`). -/
def patchIdValue (modelItem : JSEntries) : JSVal :=
  match objGet modelItem "_id" with
  | some v => if jsTruthy v then v else
      match objGet modelItem "id" with
      | some w => if jsTruthy w then w else .vStr ""
      | none => .vStr ""
  | none =>
      match objGet modelItem "id" with
      | some w => if jsTruthy w then w else .vStr ""
      | none => .vStr ""

/-- Shallow embedding of `CrudService.patch` (crud.abstract.service.ts
lines 183-204): the existing document is fetched by id, a missing document
raises the error, the patch copy loses its `__v` version field, and the
result is the nil-keeping merge of the patch into the existing document
(the final `.save()` is the database's concern). -/
def crudPatch (dbFindOne : JSEntries → Option MongoDoc) (modelItem : JSEntries) :
    Except String MongoDoc :=
  match (crudGet dbFindOne (idStringOf (patchIdValue modelItem))).1 with
  | none => .error "No model item found with the given id"
  | some existing =>
      let model := objDelete modelItem "__v"
      .ok (mergeWithNilKeep existing model)

/-! ## Claim C9: malformed ids behave like missing documents -/

/-- C9: for every id string that is not a valid ObjectID, `CrudService.get`
and `CrudService.delete` return `null` and issue no database query, so a
malformed id is indistinguishable from a missing document at the service
interface. -/
theorem crud_malformed_id_returns_null (id : String)
    (dbFindOne : JSEntries → Option MongoDoc) (dbRemove : String → Option MongoDoc)
    (h : isObjectID id = false) :
    crudGet dbFindOne id = (none, []) ∧
    crudDelete dbFindOne dbRemove id = (none, []) := by
  constructor
  · rw [crudGet, if_pos h]
  · rw [crudDelete, if_pos h]

/-- Witness for C9 at a concrete malformed id. -/
theorem crud_malformed_id_returns_null_witness :
    crudGet (fun _ => some (.cons "x" (.vStr "y") .nil)) "not-an-objectid" =
      (none, []) ∧
    crudDelete (fun _ => some (.cons "x" (.vStr "y") .nil)) (fun _ => none)
      "not-an-objectid" = (none, []) :=
  crud_malformed_id_returns_null "not-an-objectid" _ _ (by decide)
/-! ## Claim C10: patch keeps existing values for nil patch fields -/

theorem objGet_objInsert_self (e : JSEntries) (k : String) (v : JSVal) :
    objGet (objInsert e k v) k = some v := by
  match e with
  | .nil => simp [objInsert, objGet]
  | .cons k' v' t =>
      by_cases h : k' = k
      · simp [objInsert, h, objGet]
      · simp [objInsert, h, objGet, objGet_objInsert_self t k v]
termination_by structural e

theorem objGet_objInsert_ne (e : JSEntries) (k' k : String) (v : JSVal)
    (h : k' ≠ k) : objGet (objInsert e k' v) k = objGet e k := by
  match e with
  | .nil => simp [objInsert, objGet, h]
  | .cons k2 v2 t =>
      by_cases h2 : k2 = k'
      · subst h2
        simp [objInsert, objGet, h]
      · simp [objInsert, h2, objGet, objGet_objInsert_ne t k' k v h]
termination_by structural e

theorem mergeNilStep_other (acc : JSEntries) (k' k : String) (sv : JSVal)
    (h : k' ≠ k) : objGet (mergeNilStep acc k' sv) k = objGet acc k := by
  unfold mergeNilStep
  split
  · exact objGet_objInsert_ne acc k' k sv h
  · match objGet acc k' with
    | some ov =>
        match ov with
        | .vUndef =>
            match sv with
            | .vUndef => rfl
            | .vNull => exact objGet_objInsert_ne acc k' k .vNull h
            | .vStr s => exact objGet_objInsert_ne acc k' k .vNull h
            | .vNum q => exact objGet_objInsert_ne acc k' k .vNull h
            | .vBool b => exact objGet_objInsert_ne acc k' k .vNull h
            | .vArr l => exact objGet_objInsert_ne acc k' k .vNull h
            | .vObj e2 => exact objGet_objInsert_ne acc k' k .vNull h
            | .vFun => exact objGet_objInsert_ne acc k' k .vNull h
        | .vNull => exact objGet_objInsert_ne acc k' k .vNull h
        | .vStr s => exact objGet_objInsert_ne acc k' k (.vStr s) h
        | .vNum q => exact objGet_objInsert_ne acc k' k (.vNum q) h
        | .vBool b => exact objGet_objInsert_ne acc k' k (.vBool b) h
        | .vArr l => exact objGet_objInsert_ne acc k' k (.vArr l) h
        | .vObj e2 => exact objGet_objInsert_ne acc k' k (.vObj e2) h
        | .vFun => exact objGet_objInsert_ne acc k' k .vFun h
    | none =>
        match sv with
        | .vUndef => rfl
        | .vNull => exact objGet_objInsert_ne acc k' k .vNull h
        | .vStr s => exact objGet_objInsert_ne acc k' k .vNull h
        | .vNum q => exact objGet_objInsert_ne acc k' k .vNull h
        | .vBool b => exact objGet_objInsert_ne acc k' k .vNull h
        | .vArr l => exact objGet_objInsert_ne acc k' k .vNull h
        | .vObj e2 => exact objGet_objInsert_ne acc k' k .vNull h
        | .vFun => exact objGet_objInsert_ne acc k' k .vNull h

/-- Every entry of `src` stored under `k` holds a nil (`null` or
`undefined`) value. -/
def srcNilAt : JSEntries → String → Bool
  | .nil, _ => true
  | .cons k' sv t, k => (if k' = k then lodashIsNil sv else true) && srcNilAt t k

theorem srcNilAt_objDelete (src : JSEntries) (kk k : String)
    (h : srcNilAt src k = true) : srcNilAt (objDelete src kk) k = true := by
  match src with
  | .nil => simpa [objDelete] using h
  | .cons k' sv t =>
      simp only [srcNilAt, Bool.and_eq_true] at h
      by_cases hk : k' = kk
      · simp only [objDelete, if_pos hk]
        exact srcNilAt_objDelete t kk k h.2
      · simp only [objDelete, if_neg hk, srcNilAt, Bool.and_eq_true]
        exact ⟨h.1, srcNilAt_objDelete t kk k h.2⟩
termination_by structural src

theorem mergeGo_keeps (src : JSEntries) (acc : JSEntries) (k : String) (v : JSVal)
    (hv : v ≠ .vUndef) (hacc : objGet acc k = some v)
    (hnil : srcNilAt src k = true) :
    objGet (mergeWithNilKeep.go acc src) k = some v := by
  match src with
  | .nil => exact hacc
  | .cons k' sv t =>
      simp only [srcNilAt, Bool.and_eq_true] at hnil
      apply mergeGo_keeps t _ k v hv _ hnil.2
      by_cases hk : k' = k
      · subst hk
        have hsvnil : lodashIsNil sv = true := by simpa using hnil.1
        unfold mergeNilStep
        rw [hsvnil]
        simp only [Bool.true_eq_false, if_false, hacc]
        match v, hv with
        | .vNull, _ => exact objGet_objInsert_self acc k' .vNull
        | .vStr s, _ => exact objGet_objInsert_self acc k' (.vStr s)
        | .vNum q, _ => exact objGet_objInsert_self acc k' (.vNum q)
        | .vBool b, _ => exact objGet_objInsert_self acc k' (.vBool b)
        | .vArr l, _ => exact objGet_objInsert_self acc k' (.vArr l)
        | .vObj e2, _ => exact objGet_objInsert_self acc k' (.vObj e2)
        | .vFun, _ => exact objGet_objInsert_self acc k' .vFun
        | .vUndef, hv => exact absurd rfl hv
      · rw [mergeNilStep_other acc k' k sv hk]
        exact hacc
termination_by structural src

/-- Entries under key `k` are entirely absent from `src`. -/
def hasKey : JSEntries → String → Bool
  | .nil, _ => false
  | .cons k' _ t, k => k' == k || hasKey t k

theorem objDelete_hasKey (src : JSEntries) (k : String) :
    hasKey (objDelete src k) k = false := by
  match src with
  | .nil => rfl
  | .cons k' sv t =>
      by_cases hk : k' = k
      · simp only [objDelete, if_pos hk]
        exact objDelete_hasKey t k
      · simp only [objDelete, if_neg hk, hasKey, Bool.or_eq_false_iff]
        exact ⟨by simpa using hk, objDelete_hasKey t k⟩
termination_by structural src

theorem mergeGo_absent (src : JSEntries) (acc : JSEntries) (k : String)
    (habs : hasKey src k = false) :
    objGet (mergeWithNilKeep.go acc src) k = objGet acc k := by
  match src with
  | .nil => rfl
  | .cons k' sv t =>
      simp only [hasKey, Bool.or_eq_false_iff, beq_eq_false_iff_ne] at habs
      show objGet (mergeWithNilKeep.go (mergeNilStep acc k' sv) t) k = objGet acc k
      rw [mergeGo_absent t (mergeNilStep acc k' sv) k habs.2]
      exact mergeNilStep_other acc k' k sv habs.1
termination_by structural src

/-- C10: for every patch whose id matches an existing document, every field
of the existing document for which the patch object holds only nil
(`null`/`undefined`) values keeps its existing value in the merged result,
and the patch object's `__v` version field is never applied (the merged
`__v` is the existing document's).  Existing documents are hydrated from
BSON, which stores no `undefined` values, hence the `v ≠ undefined`
hypothesis. -/
theorem crudPatch_nil_keeps_existing (dbFindOne : JSEntries → Option MongoDoc)
    (modelItem existing : JSEntries)
    (hget : (crudGet dbFindOne (idStringOf (patchIdValue modelItem))).1 = some existing) :
    ∃ merged, crudPatch dbFindOne modelItem = .ok merged ∧
      (∀ k v, objGet existing k = some v → v ≠ .vUndef →
        srcNilAt modelItem k = true → objGet merged k = some v) ∧
      objGet merged "__v" = objGet existing "__v" := by
  refine ⟨mergeWithNilKeep existing (objDelete modelItem "__v"), ?_, ?_, ?_⟩
  · unfold crudPatch
    rw [hget]
  · intro k v hk hv hnil
    exact mergeGo_keeps (objDelete modelItem "__v") existing k v hv hk
      (srcNilAt_objDelete modelItem "__v" k hnil)
  · exact mergeGo_absent (objDelete modelItem "__v") existing "__v"
      (objDelete_hasKey modelItem "__v")

/-- Witness for C10 at a concrete patch: a `null` name and a stray `__v`
in the patch leave the existing name and version untouched. -/
theorem crudPatch_nil_keeps_existing_witness :
    ∃ merged,
      crudPatch (fun _ => some (.cons "name" (.vStr "John") (.cons "__v" (.vNum 2) .nil)))
        (.cons "_id" (.vStr "0123456789abcdef01234567")
          (.cons "name" .vNull (.cons "__v" (.vNum 9) .nil))) = .ok merged ∧
      objGet merged "name" = some (.vStr "John") ∧
      objGet merged "__v" = some (.vNum 2) := by
  obtain ⟨merged, hok, hkeep, hv⟩ := crudPatch_nil_keeps_existing
    (fun _ => some (.cons "name" (.vStr "John") (.cons "__v" (.vNum 2) .nil)))
    (.cons "_id" (.vStr "0123456789abcdef01234567")
      (.cons "name" .vNull (.cons "__v" (.vNum 9) .nil)))
    (.cons "name" (.vStr "John") (.cons "__v" (.vNum 2) .nil))
    rfl
  refine ⟨merged, hok, ?_, ?_⟩
  · exact hkeep "name" (.vStr "John") rfl (fun h => JSVal.noConfusion h) rfl
  · rw [hv]
    rfl
/-! ## Error handling: ExceptionInterceptor and HttpExceptionFilter -/

/-- An error escaping a request handler: either a host-framework
`HttpException` carrying its own status and response body, or any other
thrown error with a message and an optional stack. -/
inductive ThrownError where
  | httpEx (status : Nat) (body : JSVal)
  | jsError (message : String) (stack : Option String)

/-- Shallow embedding of `ExceptionInterceptor.intercept`'s `catchError`
body (src/unnamed/part_003): an `HttpException` is rethrown as is, any
other error is replaced by `new HttpException(err.message,
HttpStatus.BAD_REQUEST)` (status 400). -/
def interceptException : ThrownError → ThrownError
  | .httpEx status body => .httpEx status body
  | .jsError message _ => .httpEx 400 (.vStr message)

/-- Shallow embedding of `HttpExceptionFilter.catch`
(src/source/filters/http-exception.filter.ts lines 9-36): an
`HttpException` is sent with its own status and response body; any other
error is sent as status 500 with body `{ status: 500, message: "Internal
server error" }`, the real message and stack replacing the generic text
only when `showErrorDetails` is set.  The result is the `(status, json
body)` pair written to the response. -/
def httpExceptionFilterCatch (showErrorDetails : Bool) : ThrownError → Nat × JSVal
  | .httpEx status body => (status, body)
  | .jsError message stack =>
      let json : JSEntries :=
        .cons "status" (.vNum 500) (.cons "message" (.vStr "Internal server error") .nil)
      let json :=
        if showErrorDetails then
          objInsert
            (objInsert json "message" (.vStr message))
            "stack" (match stack with | some st => .vStr st | none => .vUndef)
        else json
      (500, .vObj json)

/-! ## Claim C8: every escaping error yields one of two responses -/

/-- C8: every error escaping a request handler results in exactly one of
two HTTP responses — a host-framework `HttpException` passes through the
interceptor unchanged and is sent by the filter with its own status and
body, while any other thrown error is replaced by a generic response:
status 400 when wrapped by the exception interceptor, status 500 with
message `"Internal server error"` when handled by the exception filter,
error details included only when explicitly enabled. -/
theorem error_responses_generic_or_passthrough (e : ThrownError)
    (showErrorDetails : Bool) :
    (∀ status body, e = .httpEx status body →
      interceptException e = e ∧
      httpExceptionFilterCatch showErrorDetails e = (status, body)) ∧
    (∀ message stack, e = .jsError message stack →
      interceptException e = .httpEx 400 (.vStr message) ∧
      (httpExceptionFilterCatch showErrorDetails e).1 = 500 ∧
      (showErrorDetails = false →
        httpExceptionFilterCatch showErrorDetails e =
          (500, .vObj (.cons "status" (.vNum 500)
            (.cons "message" (.vStr "Internal server error") .nil)))) ∧
      (showErrorDetails = true →
        httpExceptionFilterCatch showErrorDetails e =
          (500, .vObj (.cons "status" (.vNum 500)
            (.cons "message" (.vStr message)
              (.cons "stack"
                (match stack with | some st => .vStr st | none => .vUndef) .nil)))))) := by
  constructor
  · intro status body he
    subst he
    exact ⟨rfl, rfl⟩
  · intro message stack he
    subst he
    refine ⟨rfl, ?_, ?_, ?_⟩
    · cases showErrorDetails <;> rfl
    · intro h
      subst h
      rfl
    · intro h
      subst h
      rfl

/-- Witness for C8 at concrete errors: a thrown `HttpException` (403) is
passed through, and a plain `TypeError`-style error becomes 400 at the
interceptor and a generic 500 at the filter. -/
theorem error_responses_generic_or_passthrough_witness :
    interceptException (.httpEx 403 (.vStr "Forbidden")) = .httpEx 403 (.vStr "Forbidden") ∧
    httpExceptionFilterCatch false (.httpEx 403 (.vStr "Forbidden")) =
      (403, .vStr "Forbidden") ∧
    interceptException (.jsError "boom" none) = .httpEx 400 (.vStr "boom") ∧
    httpExceptionFilterCatch false (.jsError "boom" none) =
      (500, .vObj (.cons "status" (.vNum 500)
        (.cons "message" (.vStr "Internal server error") .nil))) := by
  have h1 := (error_responses_generic_or_passthrough (.httpEx 403 (.vStr "Forbidden")) false).1
    403 (.vStr "Forbidden") rfl
  have h2 := (error_responses_generic_or_passthrough (.jsError "boom" none) false).2
    "boom" none rfl
  exact ⟨h1.1, h1.2, h2.1, h2.2.2.1 rfl⟩
/-! ## crud.abstract.service.ts : getPopulateParams and deepPopulate

The authorization conditions per path (`getPopulateConditions`, which
walks the Mongoose schema and asks the referenced service's
`onFindRequest`) are modelled as an oracle `conds : String → List JSVal`
from the dotted attribute path to the list of condition objects. -/

/-- Model of Mongoose's `ModelPopulateOptions` restricted to the fields
`deepPopulate` constructs (`path`, `select`, `match`, `populate`) plus the
optional `options` object (where Mongoose carries a per-population `sort`),
which the source never sets.  The absent nested `populate` (`|| []` in the
source) is `none`. -/
inductive MPopulateOptions where
  | mk (path : String) (select : Option String) (mtch : JSVal)
       (populate : Option MPopulateOptions) (options : Option JSVal)

/-- Path component of a constructed populate option. -/
def MPopulateOptions.path : MPopulateOptions → String
  | .mk p _ _ _ _ => p

/-- Select component of a constructed populate option. -/
def MPopulateOptions.select : MPopulateOptions → Option String
  | .mk _ s _ _ _ => s

/-- Match component of a constructed populate option. -/
def MPopulateOptions.mtch : MPopulateOptions → JSVal
  | .mk _ _ m _ _ => m

/-- Nested populate component of a constructed populate option. -/
def MPopulateOptions.populate : MPopulateOptions → Option MPopulateOptions
  | .mk _ _ _ c _ => c

/-- Query-options component (the place a per-population `sort`
specification would live) of a constructed populate option. -/
def MPopulateOptions.options : MPopulateOptions → Option JSVal
  | .mk _ _ _ _ o => o

/-- The pick selectors gathered at a walked path: picks whose dropped-last
segments join to the walked path contribute their last segment; empty
contributions are dropped by the `!!item` filter, and the joined selection
becomes `undefined` when empty (`selection.join(" ") || undefined`). -/
def selectionFor (picks : List String) (walked : List String) : Option String :=
  let selection := picks.filterMap (fun pick =>
    let pickParts := jsSplitChar '.' pick
    let field := pickParts.getLastD ""
    if jsJoin "." pickParts.dropLast = jsJoin "." walked ∧ field ≠ "" then some field
    else none)
  let joined := jsJoin " " selection
  if joined = "" then none else some joined

/-- The match condition `{ $and: [{}, ...conditions] }` built at a walked
path. -/
def mongooseMatchAt (conds : String → List JSVal) (walked : List String) : JSVal :=
  .vObj (.cons "$and" (.vArr (jsListOf (.vObj .nil :: conds (jsJoin "." walked)))) .nil)

/-- Loop of `deepPopulate` over the split path segments.  The source
recursion passes `pathParts.join(".")` and immediately re-splits it;
joining then splitting is the identity on non-empty segment lists, so the
embedding passes the segments directly, and the `!path` guard of the
recursive call translates to the join being empty, i.e. the segments being
`[]` or `[""]`. -/
def deepPopulateParts (conds : String → List JSVal) (picks : List String) :
    List String → List String → Option MPopulateOptions
  | [], _ => none
  | currentPosition :: pathParts, journey =>
      some (.mk currentPosition
        (selectionFor picks (journey ++ [currentPosition]))
        (mongooseMatchAt conds (journey ++ [currentPosition]))
        (if pathParts = [] ∨ pathParts = [""] then none
         else deepPopulateParts conds picks pathParts (journey ++ [currentPosition]))
        none)

/-- Shallow embedding of `deepPopulate` from
`src/source/services/crud.abstract.service.ts` (lines 419-465): an empty
path yields `undefined`; otherwise the dotted path is split and walked,
building at each level a populate option with that segment as `path`, the
matching picks as `select`, the `$and` of the authorization conditions at
the walked path as `match`, and the recursion on the remaining segments as
`populate`. -/
def deepPopulate (conds : String → List JSVal) (path : String) (picks : List String)
    (journey : List String) : Option MPopulateOptions :=
  if path = "" then none
  else deepPopulateParts conds picks (jsSplitChar '.' path) journey

/-- Shallow embedding of `getPopulateParams` (lines 399-409): each path is
deep-populated and the `undefined` results are filtered out. -/
def getPopulateParams (conds : String → List JSVal) (paths : List String)
    (picks : List String) : List MPopulateOptions :=
  (paths.map (fun path => deepPopulate conds path picks [])).filterMap id

/-- Level access into the nested populate chain: level 0 is the option
itself, level `k+1` is level `k` of its nested populate. -/
def nthPopulateLevel : Option MPopulateOptions → Nat → Option MPopulateOptions
  | o, 0 => o
  | none, _ + 1 => none
  | some o, n + 1 => nthPopulateLevel o.populate n

/-! ## Claim C3: per-level populate options (corrected: no sort) -/

/-- C3 counterexample: the populate option built for the path `friends`
carries a per-level `path`, `select` and `match`, but no query-options
object at all — in particular no sort specification for the level: its
`options` component is absent. -/
theorem deepPopulate_no_sort_counterexample :
    (deepPopulate (fun _ => []) "friends" [] []).map MPopulateOptions.options =
      some none ∧
    deepPopulate (fun _ => []) "friends" [] [] =
      some (.mk "friends" none
        (.vObj (.cons "$and" (.vArr (.cons (.vObj .nil) .nil)) .nil)) none none) :=
  ⟨rfl, rfl⟩

theorem deepPopulateParts_levels (conds : String → List JSVal) (picks : List String) :
    ∀ (parts : List String) (journey : List String),
      (∀ s ∈ parts, s ≠ "") →
      ∀ k, k < parts.length →
        ∃ o, nthPopulateLevel (deepPopulateParts conds picks parts journey) k = some o ∧
          o.path = parts.getD k "" ∧
          o.select = selectionFor picks (journey ++ parts.take (k + 1)) ∧
          o.mtch = mongooseMatchAt conds (journey ++ parts.take (k + 1)) ∧
          o.options = none ∧
          (k + 1 < parts.length → o.populate ≠ none) ∧
          (k + 1 = parts.length → o.populate = none) := by
  intro parts
  induction parts with
  | nil =>
      intro journey hparts k hk
      exact absurd hk (by simp)
  | cons p rest ih =>
      intro journey hparts k hk
      have hrest : ∀ s ∈ rest, s ≠ "" := fun s hs => hparts s (List.mem_cons_of_mem p hs)
      have hguard : rest ≠ [] → ¬(rest = [] ∨ rest = [""]) := by
        intro hne h
        cases h with
        | inl h => exact hne h
        | inr h =>
            subst h
            exact hrest "" (by simp) rfl
      match k with
      | 0 =>
          refine ⟨.mk p (selectionFor picks (journey ++ [p]))
            (mongooseMatchAt conds (journey ++ [p]))
            (if rest = [] ∨ rest = [""] then none
             else deepPopulateParts conds picks rest (journey ++ [p])) none,
            rfl, rfl, rfl, rfl, rfl, ?_, ?_⟩
          · intro hlen
            have hne : rest ≠ [] := by
              intro h
              subst h
              simp at hlen
            rw [MPopulateOptions.populate, if_neg (hguard hne)]
            match rest, hne with
            | r :: rs, _ =>
                intro hcontra
                rw [deepPopulateParts] at hcontra
                exact Option.noConfusion hcontra
          · intro hlen
            have hlen0 : rest.length = 0 := by
              simp only [List.length_cons] at hlen
              omega
            have hne := List.eq_nil_of_length_eq_zero hlen0
            subst hne
            rw [MPopulateOptions.populate, if_pos (Or.inl rfl)]
      | j + 1 =>
          have hj : j < rest.length := by
            simp only [List.length_cons] at hk
            omega
          have hne : rest ≠ [] := by
            intro h
            subst h
            simp at hj
          obtain ⟨o, ho, hpath, hsel, hmtch, hopt, hlt, heq⟩ :=
            ih (journey ++ [p]) hrest j hj
          refine ⟨o, ?_, ?_, ?_, ?_, hopt, ?_, ?_⟩
          · show nthPopulateLevel
              (MPopulateOptions.populate (.mk p _ _
                (if rest = [] ∨ rest = [""] then none
                 else deepPopulateParts conds picks rest (journey ++ [p])) none)) j = some o
            rw [MPopulateOptions.populate, if_neg (hguard hne)]
            exact ho
          · simpa using hpath
          · rw [hsel, List.append_assoc]
            rfl
          · rw [hmtch, List.append_assoc]
            rfl
          · intro hlen
            apply hlt
            simp only [List.length_cons] at hlen
            omega
          · intro hlen
            apply heq
            simp only [List.length_cons] at hlen
            omega

/-- C3 (amended, dropping the claimed per-level sort): for every dotted
population path and pick list, the nested populate options built by
`deepPopulate` carry per-level `path`, `select` and `match` — at level `k`
the option's path is the k-th segment, its select is built from the picks
whose dropped-last prefix equals the journey walked so far, its match is
the `$and` of the authorization conditions for the walked path, the next
segment is handled by a recursively nested populate option — and no level
carries a sort specification (its query-options component is absent). -/
theorem deepPopulate_per_level (conds : String → List JSVal) (picks : List String)
    (journey : List String) (path : String) (parts : List String)
    (hsplit : jsSplitChar '.' path = parts) (hne : path ≠ "")
    (hparts : ∀ s ∈ parts, s ≠ "") :
    ∀ k, k < parts.length →
      ∃ o, nthPopulateLevel (deepPopulate conds path picks journey) k = some o ∧
        o.path = parts.getD k "" ∧
        o.select = selectionFor picks (journey ++ parts.take (k + 1)) ∧
        o.mtch = mongooseMatchAt conds (journey ++ parts.take (k + 1)) ∧
        o.options = none ∧
        (k + 1 < parts.length → o.populate ≠ none) ∧
        (k + 1 = parts.length → o.populate = none) := by
  intro k hk
  rw [deepPopulate, if_neg hne, hsplit]
  exact deepPopulateParts_levels conds picks parts journey hparts k hk

/-- Witness for C3 (amended) at the concrete path `friends.books` with the
pick `friends.title`: level 0 populates `friends`, selects `title`, and
nests a deeper populate option. -/
theorem deepPopulate_per_level_witness :
    (∃ o, nthPopulateLevel
        (deepPopulate (fun _ => []) "friends.books" ["friends.title"] []) 0 = some o ∧
      o.path = ["friends", "books"].getD 0 "" ∧
      o.select = selectionFor ["friends.title"] ([] ++ ["friends", "books"].take 1) ∧
      o.mtch = mongooseMatchAt (fun _ => []) ([] ++ ["friends", "books"].take 1) ∧
      o.options = none ∧
      (0 + 1 < ["friends", "books"].length → o.populate ≠ none) ∧
      (0 + 1 = ["friends", "books"].length → o.populate = none)) ∧
    selectionFor ["friends.title"] ([] ++ ["friends", "books"].take 1) = some "title" := by
  constructor
  · exact deepPopulate_per_level (fun _ => []) ["friends.title"] [] "friends.books"
      ["friends", "books"] rfl (by decide) (by decide) 0 (by decide)
  · rfl
/-! ## Legacy controller (src/unnamed/part_016) : queryToConditions

The controller's `queryToConditions` reads the service schema through
`getSchema()`; the schema is modelled as an association list from field
name to whether the field's declared type is `String` (the only schema
fact the function consults — for prototype-inherited keys such as
`constructor` the guarded read `schema[key] && schema[key].type === String`
finds a truthy function whose `type` is `undefined`, so it is false there
exactly as for absent keys). -/

/-- Legacy `IHttpOptions` (src/unnamed/part_018) restricted to the fields
`queryToConditions` reads. -/
structure IHttpOptionsLegacy where
  search : Option String
  searchScope : Option String
  filter : Option (List (String × String))

/-- Truthiness-guarded schema test `schema[key] && schema[key].type ===
String`. -/
def schemaIsString (schema : List (String × Bool)) (key : String) : Bool :=
  match schema.find? (fun kv => kv.1 == key) with
  | some kv => kv.2
  | none => false

/-- Own-property assignment on a string-valued object: an existing key
keeps its position and gets the new value, a new key is appended. -/
def strInsertOwn : List (String × String) → String → String → List (String × String)
  | [], k, v => [(k, v)]
  | (k', v') :: t, k, v =>
      if k' = k then (k', v) :: t else (k', v') :: strInsertOwn t k v

/-- Model of the assignment `searchOptions[key] = value`: every key
creates (or updates) an own property, except `__proto__` — that
assignment invokes the inherited `Object.prototype` accessor, and setting
the prototype to a string is silently ignored, creating no key. -/
def strInsert (acc : List (String × String)) (k : String) (v : String) :
    List (String × String) :=
  if k = "__proto__" then acc else strInsertOwn acc k v

/-- The search scope: the split `searchScope` parameter when truthy, and
`_id` plus every schema key otherwise. -/
def searchScopeOf (schema : List (String × Bool)) (query : IHttpOptionsLegacy) :
    List String :=
  match query.searchScope with
  | some sc => if sc = "" then "_id" :: schema.map Prod.fst else jsSplitChar ',' sc
  | none => "_id" :: schema.map Prod.fst

/-- The `searchOptions` object: empty unless `query.search` is truthy, in
which case every scope key is assigned the search string. -/
def searchOptionsOf (schema : List (String × Bool)) (query : IHttpOptionsLegacy) :
    List (String × String) :=
  match query.search with
  | some s =>
      if s = "" then []
      else (searchScopeOf schema query).foldl (fun acc k => strInsert acc k s) []
  | none => []

/-- The per-field condition `{ $or: keyConditions }` built for one key: a
case-insensitive `$regex` alternative when the schema types the field as
`String`, a numeric alternative when the value coerces to a number, and
the raw string value always. -/
def perFieldCondition (schema : List (String × Bool)) (key value : String) : JSVal :=
  let keyConditions : List JSVal :=
    (if schemaIsString schema key then
       [JSVal.vObj (.cons key
         (.vObj (.cons "$regex" (.vStr value) (.cons "$options" (.vStr "i") .nil))) .nil)]
     else []) ++
    (match toNumber value with
     | .num q => [JSVal.vObj (.cons key (.vNum q) .nil)]
     | .nan => []) ++
    [JSVal.vObj (.cons key (.vStr value) .nil)]
  .vObj (.cons "$or" (.vArr (jsListOf keyConditions)) .nil)

/-- Shallow embedding of the legacy `queryToConditions`
(src/unnamed/part_016 lines 176-221): search keys map to `$or` entries,
filter keys to `$and` entries, each list defaulting to `[{}]` when
empty. -/
def queryToConditionsLegacy (schema : List (String × Bool))
    (query : IHttpOptionsLegacy) : JSVal :=
  let orC := (searchOptionsOf schema query).map
    (fun kv => perFieldCondition schema kv.1 kv.2)
  let andC := (query.filter.getD []).map
    (fun kv => perFieldCondition schema kv.1 kv.2)
  .vObj (.cons "$or" (.vArr (jsListOf (if orC.isEmpty then [JSVal.vObj .nil] else orC)))
    (.cons "$and" (.vArr (jsListOf (if andC.isEmpty then [JSVal.vObj .nil] else andC)))
      .nil))

/-- Scope keys that the object assignment can actually create
(`__proto__` cannot become an own key). -/
def assignableKeys (scope : List String) : List String :=
  scope.filter (fun k => !(k == "__proto__"))

/-- Keys of a scope in first-occurrence order with duplicates removed,
relative to an already-seen key set. -/
def dedupNew (seen : List String) : List String → List String
  | [] => []
  | k :: t => if k ∈ seen then dedupNew seen t else k :: dedupNew (k :: seen) t

/-- Scope keys in first-occurrence order, deduplicated. -/
def dedupKeys (scope : List String) : List String :=
  dedupNew [] scope

theorem strInsertOwn_mem (acc : List (String × String)) (k : String) (s : String)
    (hs : ∀ kv ∈ acc, kv.2 = s) (hk : k ∈ acc.map Prod.fst) :
    strInsertOwn acc k s = acc := by
  induction acc with
  | nil => simp at hk
  | cons kv t ih =>
      match kv with
      | (k', v') =>
        by_cases h : k' = k
        · subst h
          have : v' = s := hs (k', v') (by simp)
          subst this
          simp [strInsertOwn]
        · simp only [List.map_cons, List.mem_cons] at hk
          rcases hk with hk | hk
          · exact absurd hk.symm h
          · simp only [strInsertOwn, if_neg h, List.cons.injEq, true_and]
            exact ih (fun kv hkv => hs kv (List.mem_cons_of_mem _ hkv)) hk

theorem strInsertOwn_new (acc : List (String × String)) (k : String) (s : String)
    (hk : k ∉ acc.map Prod.fst) :
    strInsertOwn acc k s = acc ++ [(k, s)] := by
  induction acc with
  | nil => rfl
  | cons kv t ih =>
      match kv with
      | (k', v') =>
        simp only [List.map_cons, List.mem_cons, not_or] at hk
        have hne : ¬(k' = k) := fun h => hk.1 h.symm
        show (if k' = k then (k', s) :: t else (k', v') :: strInsertOwn t k s) =
          (k', v') :: (t ++ [(k, s)])
        rw [if_neg hne, ih hk.2]

theorem foldl_strInsert_assignable (s : String) (scope : List String) :
    ∀ acc, scope.foldl (fun a k => strInsert a k s) acc =
      (assignableKeys scope).foldl (fun a k => strInsertOwn a k s) acc := by
  induction scope with
  | nil => intro acc; rfl
  | cons k t ih =>
      intro acc
      by_cases hk : k = "__proto__"
      · subst hk
        simp only [List.foldl_cons, assignableKeys, List.filter_cons]
        rw [show strInsert acc "__proto__" s = acc from if_pos rfl]
        simpa [assignableKeys] using ih acc
      · simp only [List.foldl_cons, assignableKeys, List.filter_cons]
        rw [show strInsert acc k s = strInsertOwn acc k s from if_neg hk]
        have hbeq : (k == "__proto__") = false := by
          simpa using hk
        simp only [hbeq, Bool.not_false, if_pos]
        simpa [assignableKeys] using ih (strInsertOwn acc k s)

theorem dedupNew_congr (t : List String) :
    ∀ seen1 seen2, (∀ x, x ∈ seen1 ↔ x ∈ seen2) →
      dedupNew seen1 t = dedupNew seen2 t := by
  induction t with
  | nil => intro seen1 seen2 h; rfl
  | cons k t ih =>
      intro seen1 seen2 h
      simp only [dedupNew]
      by_cases hk : k ∈ seen1
      · rw [if_pos hk, if_pos ((h k).mp hk)]
        exact ih seen1 seen2 h
      · rw [if_neg hk, if_neg (fun hc => hk ((h k).mpr hc))]
        rw [ih (k :: seen1) (k :: seen2) ?_]
        intro x
        simp only [List.mem_cons]
        constructor
        · rintro (hx | hx)
          · exact Or.inl hx
          · exact Or.inr ((h x).mp hx)
        · rintro (hx | hx)
          · exact Or.inl hx
          · exact Or.inr ((h x).mpr hx)

theorem foldl_strInsertOwn (s : String) (scope : List String) :
    ∀ acc, (∀ kv ∈ acc, kv.2 = s) →
      scope.foldl (fun a k => strInsertOwn a k s) acc =
        acc ++ (dedupNew (acc.map Prod.fst) scope).map (fun k => (k, s)) := by
  induction scope with
  | nil => intro acc hacc; simp [dedupNew]
  | cons k t ih =>
      intro acc hacc
      simp only [List.foldl_cons, dedupNew]
      by_cases hk : k ∈ acc.map Prod.fst
      · rw [strInsertOwn_mem acc k s hacc hk, if_pos hk]
        exact ih acc hacc
      · have hval : ∀ kv ∈ acc ++ [(k, s)], kv.2 = s := by
          intro kv hkv
          rcases List.mem_append.mp hkv with h | h
          · exact hacc kv h
          · simp only [List.mem_singleton] at h
            simp [h]
        rw [strInsertOwn_new acc k s hk, if_neg hk, ih (acc ++ [(k, s)]) hval]
        rw [dedupNew_congr t ((acc ++ [(k, s)]).map Prod.fst) (k :: acc.map Prod.fst) ?_]
        · simp
        · intro x
          simp only [List.map_append, List.map_cons, List.map_nil, List.mem_append,
            List.mem_cons, List.mem_singleton, List.not_mem_nil, or_false]
          constructor
          · rintro (hx | hx)
            · exact Or.inr hx
            · exact Or.inl hx
          · rintro (hx | hx)
            · exact Or.inr hx
            · exact Or.inl hx

theorem searchOptionsOf_eq (schema : List (String × Bool))
    (query : IHttpOptionsLegacy) (s : String) (hsearch : query.search = some s)
    (hne : s ≠ "") :
    searchOptionsOf schema query =
      (dedupKeys (assignableKeys (searchScopeOf schema query))).map
        (fun k => (k, s)) := by
  unfold searchOptionsOf
  rw [hsearch]
  simp only [if_neg hne]
  rw [foldl_strInsert_assignable]
  have := foldl_strInsertOwn s (assignableKeys (searchScopeOf schema query)) [] (by simp)
  simpa [dedupKeys] using this

/-! ## Claim C6: search and filter merge into $or and $and (corrected) -/

/-- C6 counterexample: with search scope `__proto__`, the program builds
no search condition at all — assigning the search string to
`searchOptions["__proto__"]` invokes the inherited accessor and creates no
key — so the result's `$or` is the default `[{}]` and holds no per-field
condition for the scope field `__proto__` (the empty object is not that
field's condition), refuting the claim as stated. -/
theorem queryToConditions_proto_scope_counterexample :
    queryToConditionsLegacy []
      { search := some "jo", searchScope := some "__proto__", filter := none } =
      .vObj (.cons "$or" (.vArr (.cons (.vObj .nil) .nil))
        (.cons "$and" (.vArr (.cons (.vObj .nil) .nil)) .nil)) ∧
    searchScopeOf []
      { search := some "jo", searchScope := some "__proto__", filter := none } =
      ["__proto__"] ∧
    JSVal.vObj .nil ≠ perFieldCondition [] "__proto__" "jo" := by
  refine ⟨rfl, rfl, ?_⟩
  intro h
  injection h with h1
  exact JSEntries.noConfusion h1

/-- C6 (amended): `queryToConditions` merges search and filter parameters
into distinct branches: the returned object is `{ $or, $and }`, where
`$or` holds one per-field condition for each distinct assignable field of
the search scope when a search is given (assignment to `__proto__`
creates no key, so such scope entries contribute no condition), `$and`
holds one per-field condition for each key of the filter parameter, and
each list defaults to `[{}]` when empty. -/
theorem queryToConditions_or_and (schema : List (String × Bool))
    (query : IHttpOptionsLegacy) :
    ∃ orL andL,
      queryToConditionsLegacy schema query =
        .vObj (.cons "$or" (.vArr (jsListOf orL))
          (.cons "$and" (.vArr (jsListOf andL)) .nil)) ∧
      (∀ s, query.search = some s → s ≠ "" →
        orL = if (dedupKeys (assignableKeys (searchScopeOf schema query))).isEmpty
              then [JSVal.vObj .nil]
              else (dedupKeys (assignableKeys (searchScopeOf schema query))).map
                (fun k => perFieldCondition schema k s)) ∧
      ((query.search = none ∨ query.search = some "") → orL = [JSVal.vObj .nil]) ∧
      (andL = if (query.filter.getD []).isEmpty then [JSVal.vObj .nil]
              else (query.filter.getD []).map
                (fun kv => perFieldCondition schema kv.1 kv.2)) := by
  refine ⟨_, _, rfl, ?_, ?_, ?_⟩
  · intro s hsearch hne
    rw [searchOptionsOf_eq schema query s hsearch hne]
    rw [List.map_map]
    rcases hdk : dedupKeys (assignableKeys (searchScopeOf schema query)) with _ | ⟨k, t⟩
    · simp
    · simp [Function.comp]
  · intro hcase
    have : searchOptionsOf schema query = [] := by
      unfold searchOptionsOf
      rcases hcase with h | h <;> rw [h] <;> simp
    rw [this]
    simp
  · rcases hf : (query.filter.getD []) with _ | ⟨kv, t⟩
    · simp
    · simp

/-- Witness for C6 (amended) at a concrete query: schema
`{ name: String }`, search string `jo` with the default scope, and filter
`{ age: "3" }`. -/
theorem queryToConditions_or_and_witness :
    queryToConditionsLegacy [("name", true)]
      { search := some "jo", searchScope := none, filter := some [("age", "3")] } =
      .vObj (.cons "$or" (.vArr (jsListOf
          (["_id", "name"].map (fun k => perFieldCondition [("name", true)] k "jo"))))
        (.cons "$and" (.vArr (jsListOf
          ([("age", "3")].map (fun kv =>
            perFieldCondition [("name", true)] kv.1 kv.2)))) .nil)) := by
  obtain ⟨orL, andL, heq, hor, hnone, hand⟩ :=
    queryToConditions_or_and [("name", true)]
      { search := some "jo", searchScope := none, filter := some [("age", "3")] }
  rw [heq, hor "jo" rfl (by decide), hand]
  rfl

end NestUtilities
